import Mathlib

/-!
EmailParser: a shallow embedding of `main.go`.

The validators of `main.go` are translated function by function.

* A Go `string` is a finite sequence of bytes: `GoString := List Nat` (each
  element a byte value).  String literals are written `utf8 "..."`, the UTF-8
  encoding of the Lean literal.
* A Go `[]string` is a `List GoString`.  Every slice expression of the source is
  applied to a slice whose capacity equals its length, so bounds are checked
  against the length.
* A Go run either returns or stops with a run-time panic (`Run`); the two
  panics that the source can raise are an index out of range and slice bounds
  out of range.
* The collaborators outside the repository (`idna.ToASCII`, `net.ParseIP`,
  `IP.IsPrivate`, `IP.String`, `net.LookupMX`, `net.LookupIP`) are the fields of
  `Resolver`.
-/

set_option maxRecDepth 16384

namespace EmailParser

/-! ## Go values -/

/-- A Go string: its bytes, in order. -/
abbrev GoString := List Nat

/-- UTF-8 encoding of one code point. -/
def utf8EncodeNat (c : Nat) : GoString :=
  if c < 0x80 then [c]
  else if c < 0x800 then [0xC0 + c / 64, 0x80 + c % 64]
  else if c < 0x10000 then [0xE0 + c / 4096, 0x80 + c / 64 % 64, 0x80 + c % 64]
  else [0xF0 + c / 262144, 0x80 + c / 4096 % 64, 0x80 + c / 64 % 64, 0x80 + c % 64]

/-- The Go string literal with the given text (UTF-8 encoded, as Go source is). -/
def utf8 (s : String) : GoString :=
  s.data.flatMap fun c => utf8EncodeNat c.toNat

/-- Run-time panics of the Go runtime that the source can raise. -/
inductive Panic where
  | indexOutOfRange
  | sliceBoundsOutOfRange
  deriving DecidableEq, Repr

/-- Outcome of running a Go function: a normal return or a panic. -/
inductive Run (α : Type) where
  | ret (a : α)
  | panic (p : Panic)
  deriving DecidableEq, Repr

/-- Sequencing of Go statements: a panic aborts the rest. -/
def Run.bind {α β : Type} (x : Run α) (f : α → Run β) : Run β :=
  match x with
  | .ret a => f a
  | .panic p => .panic p

instance : Monad Run where
  pure := Run.ret
  bind := Run.bind

/-- The two package-level error values of `main.go` (lines 112-113). -/
inductive GoError where
  | ErrPunycodeConversion
  | ErrDomainOnly
  deriving DecidableEq, Repr

/-- The `(bool, error)` result pair of the validators; `none` is the `nil` error. -/
abbrev Verdict := Bool × Option GoError

/-- Go indexing `l[i]`: panics unless `0 <= i < len(l)`. -/
def index {α : Type} (l : List α) (i : Int) : Run α :=
  if i < 0 then .panic .indexOutOfRange
  else match l.get? i.toNat with
    | some x => .ret x
    | none => .panic .indexOutOfRange

/-- Go slice expression `l[cc:]` (on a slice with `cap(l) = len(l)`). -/
def sliceFrom (l : List GoString) (cc : Int) : Run (List GoString) :=
  if cc < 0 ∨ (l.length : Int) < cc then .panic .sliceBoundsOutOfRange
  else .ret (l.drop cc.toNat)

/-- Go slice expression `l[:cc]` (on a slice with `cap(l) = len(l)`). -/
def sliceTo (l : List GoString) (cc : Int) : Run (List GoString) :=
  if cc < 0 ∨ (l.length : Int) < cc then .panic .sliceBoundsOutOfRange
  else .ret (l.take cc.toNat)

/-- Go string slice `e[:n]` for `0 <= n <= len(e)`. -/
def strTo (e : GoString) (n : Int) : Run GoString :=
  if n < 0 ∨ (e.length : Int) < n then .panic .sliceBoundsOutOfRange
  else .ret (e.take n.toNat)

/-- Go map read `m[k]` on a `map[string]bool`: the stored value and whether the key is present. -/
def mapGet (m : List (GoString × Bool)) (k : GoString) : Bool × Bool :=
  match m with
  | [] => (false, false)
  | (k', v) :: rest => if k = k' then (v, true) else mapGet rest k

/-! ## The `strings` and `unicode/utf8` functions the source calls -/

/-- Is `b` a UTF-8 continuation byte (0x80..0xBF)? -/
def isCont (b : Nat) : Bool := 0x80 ≤ b && b ≤ 0xBF

/-- Width in bytes of the first rune of `s`, as `utf8.DecodeRuneInString` reports it:
the length of a well-formed UTF-8 sequence, and 1 for an invalid byte. -/
def runeSize : GoString → Nat
  | [] => 0
  | s0 :: rest =>
    if s0 < 0xC2 then 1
    else if s0 ≤ 0xDF then
      match rest with
      | s1 :: _ => if isCont s1 then 2 else 1
      | [] => 1
    else if s0 ≤ 0xEF then
      match rest with
      | s1 :: s2 :: _ =>
        if (if s0 = 0xE0 then 0xA0 else 0x80) ≤ s1 ∧ s1 ≤ (if s0 = 0xED then 0x9F else 0xBF)
            ∧ isCont s2 then 3 else 1
      | _ => 1
    else if s0 ≤ 0xF4 then
      match rest with
      | s1 :: s2 :: s3 :: _ =>
        if (if s0 = 0xF0 then 0x90 else 0x80) ≤ s1 ∧ s1 ≤ (if s0 = 0xF4 then 0x8F else 0xBF)
            ∧ isCont s2 ∧ isCont s3 then 4 else 1
      | _ => 1
    else 1

/-- Rune-by-rune split, with the remaining length as recursion bound. -/
def explodeAux : Nat → GoString → List GoString
  | 0, _ => []
  | _, [] => []
  | fuel + 1, b :: bs =>
    (b :: bs).take (runeSize (b :: bs)) :: explodeAux fuel ((b :: bs).drop (runeSize (b :: bs)))

/-- Go `strings.Split(s, "")`: one string per UTF-8 sequence of `s`, an invalid byte being a
piece of its own.  The slice returned has as many elements as its capacity. -/
def explode (s : GoString) : List GoString := explodeAux s.length s

/-- Go `strings.Join(l, "")`. -/
def join (l : List GoString) : GoString := l.flatten

/-- Does `s` start with `p`? -/
def startsWith : GoString → GoString → Bool
  | _, [] => true
  | [], _ :: _ => false
  | a :: s, b :: p => a == b && startsWith s p

/-- Offset of the first occurrence of `sub` in `s` at or after offset `off`, or -1. -/
def indexFrom (sub : GoString) : GoString → Int → Int
  | [], off => if startsWith [] sub then off else -1
  | a :: s, off => if startsWith (a :: s) sub then off else indexFrom sub s (off + 1)

/-- Go `strings.Index(s, sub)`: byte offset of the first occurrence, or -1. -/
def strIndex (s sub : GoString) : Int := indexFrom sub s 0

/-- Go `strings.Contains(s, sub)`. -/
def contains (s sub : GoString) : Bool := decide (0 ≤ strIndex s sub)

/-- Offset of the last byte equal to `b` in `s` counted from `off`, or `acc` if there is none. -/
def lastIndexFrom (b : Nat) : GoString → Int → Int → Int
  | [], _, acc => acc
  | a :: s, off, acc => lastIndexFrom b s (off + 1) (if a = b then off else acc)

/-- Go `strings.LastIndexAny(s, chars)` for a one-byte ASCII `chars`: byte offset of the
last occurrence of that byte, or -1. -/
def lastIndexByte (s : GoString) (b : Nat) : Int := lastIndexFrom b s 0 (-1)

/-! ## Tables (lines 59-110) -/

/-- The table `escapeneededinquotes` (lines 59-62). -/
def escapeneededinquotes : List (GoString × Bool) :=
  [(utf8 "\"", true), (utf8 "\\", true)]

/-- The table `disallowed` (lines 63-110). -/
def disallowed : List (GoString × Bool) :=
  [([0x00], true), ([0x01], true), ([0x02], true), ([0x03], true), ([0x04], true),
   ([0x05], true), ([0x06], true), ([0x07], true), ([0x08], true), ([0x09], true),
   ([0x0A], true), ([0x0B], true), ([0x0C], true), ([0x0D], true), ([0x0E], true),
   ([0x0F], true), ([0x10], true), ([0x11], true), ([0x12], true), ([0x13], true),
   ([0x14], true), ([0x15], true), ([0x16], true), ([0x17], true), ([0x18], true),
   ([0x19], true), ([0x1A], true), ([0x1B], true), ([0x1C], true), ([0x1D], true),
   ([0x1E], true), ([0x1F], true), ([0x20], true), ([0x22], true), ([0x28], true),
   ([0x29], true), ([0x2E], true), ([0x3A], true), ([0x3B], true), ([0x3C], true),
   ([0x3E], true), ([0x3F], true), ([0x40], true), ([0x5B], true), ([0x5C], true),
   ([0x5D], true)]

/-! ## Local part (lines 241-340, 358-380) -/

/-- The function `lpByteCheck` (lines 358-368). -/
def lpByteCheck (r : List GoString) (slice : Int) : Run Bool := do
  let sl ← index r slice
  let ns ← index r (slice - 1)
  if sl = utf8 "." ∧ ns = utf8 "." then
    return false
  if (mapGet disallowed sl).1 then
    return false
  return true

/-- The function `lpQuoteString` (lines 370-380). -/
def lpQuoteString (r : List GoString) (slice : Int) : Run Bool := do
  let sl ← index r slice
  let ns ← index r (slice - 1)
  if (mapGet escapeneededinquotes sl).1 then
    return contains ns (utf8 "\\")
  if contains ns (utf8 "\\") then
    return false
  return true

/-- The loop `for cb >= 0 && l[cb] != "" { if !lpQuoteString(l, cb) { return false, nil }; cb-- }`
followed by `return true, nil` (lines 301-306 and 339).  The counter `cb` only ever
decreases from its start value, so the loop state is `cb + 1 : Nat`. -/
def quoteLoop (l : List GoString) : Nat → Run Verdict
  | 0 => .ret (true, none)
  | cb + 1 => do
    let x ← index l cb
    if x = [] then
      return (true, none)
    if !(← lpQuoteString l cb) then
      return (false, none)
    quoteLoop l cb

/-- The loop `for cb >= 0 && l[cb] != "" { if !lpByteCheck(l, cb) { return false, nil } else { cb-- } }`
followed by `return true, nil` (lines 331-339); the loop state is `cb + 1 : Nat`. -/
def atomLoop (l : List GoString) : Nat → Run Verdict
  | 0 => .ret (true, none)
  | cb + 1 => do
    let x ← index l cb
    if x = [] then
      return (true, none)
    if !(← lpByteCheck l cb) then
      return (false, none)
    atomLoop l cb

/-- Lines 328-339: the trailing-dot test at the index `cb` computed on line 319, then the scan. -/
def atomScan (l : List GoString) (cb : Int) : Run Verdict := do
  if (← index l cb) = utf8 "." then
    return (false, none)
  atomLoop l (cb + 1).toNat

/-- Lines 319-339: `cb := len(l) - 1`, the trailing-comment cut `l = l[:cc]`, then the scan.
The cut does not update `cb`. -/
def atomTail (l : List GoString) : Run Verdict := do
  let cb : Int := (l.length : Int) - 1
  if (← index l cb) = utf8 ")" then
    let cc := strIndex (join l) (utf8 "()")
    if cc = -1 then
      return (false, none)
    else if cc ≥ 0 then
      atomScan (← sliceTo l cc) cb
    else
      atomScan l cb
  else
    atomScan l cb

/-- Lines 308-339: the `else` branch of the shape test (the atom shape). -/
def atomBranch (l : List GoString) : Run Verdict := do
  if (← index l 0) = utf8 "." then
    return (false, none)
  if (← index l 0) = utf8 "(" then
    let cc := strIndex (join l) (utf8 ")")
    if cc = -1 then
      return (false, none)
    else if cc ≥ 0 then
      atomTail (← sliceFrom l cc)
    else
      atomTail l
  else
    atomTail l

/-- Lines 298-339 of `ValidateLocalPart`, which are lines 250-291 of
`ValidateLocalPartOfEmail` word for word: everything after the length guard. -/
def localPartBody (e : GoString) : Run Verdict := do
  let l := explode e
  let quoted ←
    if (← index l ((l.length : Int) - 1)) = utf8 "\"" then
      (do pure (decide ((← index l 0) = utf8 "\"")) : Run Bool)
    else pure false
  if quoted then
    let cb : Int := (l.length : Int) - 1
    quoteLoop l (cb + 1).toNat
  else
    atomBranch l

/-- The function `ValidateLocalPart` (lines 294-340). -/
def ValidateLocalPart (e : GoString) : Run Verdict :=
  if (e.length : Int) ≤ 0 ∨ (e.length : Int) > 64 then .ret (false, none)
  else localPartBody e

/-- The function `ValidateLocalPartOfEmail` (lines 241-292). -/
def ValidateLocalPartOfEmail (e : GoString) : Run Verdict :=
  let lastat := lastIndexByte e 0x40
  if lastat = -1 then .ret (false, none)
  else (strTo e lastat).bind fun localpart =>
    if (localpart.length : Int) ≤ 0 ∨ (localpart.length : Int) > 64 then .ret (false, none)
    else localPartBody localpart

/-! ## Domain (lines 12-58, 115-239) -/

/-- A Go `net.IP`: its bytes. -/
abbrev IP := List Nat

/-- The collaborators outside the repository, taken as parameters. -/
structure Resolver where
  /-- Go `idna.ToASCII`; `none` when it returns a non-nil error. -/
  toASCII : GoString → Option GoString
  /-- Go `net.ParseIP`; `none` when it returns the nil IP. -/
  parseIP : GoString → Option IP
  /-- Go `IP.IsPrivate` on a non-nil IP. -/
  isPrivate : IP → Bool
  /-- Go `IP.String`. -/
  ipString : IP → GoString
  /-- Go `net.LookupMX`: the `Host` fields of the records returned, and whether the
  error returned is non-nil. -/
  lookupMX : GoString → List GoString × Bool
  /-- Go `net.LookupIP`: the addresses returned, and whether the error returned is non-nil. -/
  lookupIP : GoString → List IP × Bool

/-- The table `commondomains` (lines 12-58). -/
def commondomains : List (GoString × Bool) :=
  [(utf8 "gmail.com.", true),
   (utf8 "yahoo.com.", true),
   (utf8 "hotmail.com.", true),
   (utf8 "outlook.com.", true),
   (utf8 "icloud.com.", true),
   (utf8 "protonmail.com.", true),
   (utf8 "proton.me.", true),
   (utf8 "pm.me.", true),
   (utf8 "zoho.com.", true),
   (utf8 "yandex.com.", true),
   (utf8 "gmx.com.", true),
   (utf8 "mail.com.", true),
   (utf8 "email.com.", true),
   (utf8 "gmx.de.", true),
   (utf8 "yahoo.co.jp.", true),
   (utf8 "hey.com.", true),
   (utf8 "fastmail.com.", true),
   (utf8 "purelymail.com.", true),
   (utf8 "altostrat.com.", false),
   (utf8 "examplepetstore.com.", false),
   (utf8 "example-pet-store.com.", false),
   (utf8 "myownpersonaldomain.com.", false),
   (utf8 "my-own-personal-domain.com.", false),
   (utf8 "cymbalgroup.com.", false),
   (utf8 "example.com.", false),
   (utf8 "example.net.", false),
   (utf8 "example.org.", false),
   (utf8 "example.edu.", false),
   (utf8 "test.", false),
   (utf8 "example.", false),
   (utf8 "invalid.", false),
   (utf8 "localhost.", false),
   (utf8 "local.", false),
   (utf8 "onion.", false),
   (utf8 "xn--kgbechtv.", false),
   (utf8 "xn--hgbk6aj7f53bba.", false),
   (utf8 "xn--0zwm56d.", false),
   (utf8 "xn--g6w251d.", false),
   (utf8 "xn--80akhbyknj4f.", false),
   (utf8 "xn--11b5bs3a9aj6g.", false),
   (utf8 "xn--jxalpdlp.", false),
   (utf8 "xn--9t4b11yi5a.", false),
   (utf8 "xn--deba0ad.", false),
   (utf8 "xn--zckzah.", false),
   (utf8 "xn--hlcj6aya9esc7a.", false)]

/-- Go `strings.Split(s, sep)` for a one-byte separator `sep`. -/
def splitByte (sep : Nat) : GoString → List GoString
  | [] => [[]]
  | a :: s =>
    if a = sep then [] :: splitByte sep s
    else match splitByte sep s with
      | p :: ps => (a :: p) :: ps
      | [] => [[a]]

/-- Replacement of the first `n` non-overlapping occurrences of `old` (all of them when
`n < 0`), with the remaining length as recursion bound. -/
def replaceAux (old new : GoString) : Nat → GoString → Int → GoString
  | 0, s, _ => s
  | _, [], _ => []
  | fuel + 1, a :: s, n =>
    if n = 0 then a :: s
    else if startsWith (a :: s) old then
      new ++ replaceAux old new fuel ((a :: s).drop old.length) (n - 1)
    else a :: replaceAux old new fuel s n

/-- Go `strings.Replace(s, old, new, n)` for a non-empty `old`. -/
def replace (s old new : GoString) (n : Int) : GoString :=
  replaceAux old new s.length s n

/-- A byte that the class `[^ghijklmnopqrstuvwxyz\[\]]` matches: any but `g`..`z`, `[`, `]`. -/
def inLiteralClass (b : Nat) : Bool :=
  !((0x67 ≤ b && b ≤ 0x7A) || b == 0x5B || b == 0x5D)

/-- Does the regular expression `^\[[^ghijklmnopqrstuvwxyz\[\]]*\]$` match `s`?  The excluded
characters are ASCII, so the match is decided byte by byte. -/
def matchesIPLiteral (s : GoString) : Bool :=
  match s with
  | 0x5B :: rest =>
    match rest.reverse with
    | 0x5D :: mid => mid.all inLiteralClass
    | _ => false
  | _ => false

/-- Lines 124-130, 185-191 and 193-199: `net.ParseIP`, the nil test and `IsPrivate`. -/
def parseAndCheck (R : Resolver) (s : GoString) : Run Verdict :=
  match R.parseIP s with
  | none => .ret (false, none)
  | some i => if R.isPrivate i then .ret (false, none) else .ret (true, none)

/-- The loop `for num <= len(mxaddr) { ... num++ }` of lines 161-168 and 230-237, followed by
`return true, nil`; the first argument bounds the number of iterations. -/
def addrLoop (R : Resolver) (mxaddr : List IP) : Nat → Nat → Run Verdict
  | 0, _ => .ret (true, none)
  | fuel + 1, num =>
    if num ≤ mxaddr.length then do
      let a ← index mxaddr num
      let priv := match R.parseIP (R.ipString a) with
        | none => false
        | some ip => R.isPrivate ip
      if priv then
        return (false, none)
      else
        addrLoop R mxaddr fuel (num + 1)
    else .ret (true, none)

/-- Lines 144-169 of `ValidateDomainOfEmail`, which are lines 213-238 of `ValidateDomain`
word for word: the syntactic checks and the mail-exchanger lookups. -/
def domainChecks (R : Resolver) (idn : GoString) : Run Verdict := do
  if (idn.length : Int) ≤ 0 ∨ (idn.length : Int) ≥ 255 ∨ contains idn (utf8 " ")
      ∨ contains idn (utf8 "..") ∨ contains idn (utf8 "-.") ∨ contains idn (utf8 ".-")
      ∨ strIndex idn (utf8 ".") = 0 then
    return (false, none)
  if (idn.length : Int) ≥ 255 then
    return (false, none)
  let (mxhost, err) := R.lookupMX idn
  let mxhostname ← index mxhost 0
  if err then
    return (false, none)
  let (mxaddr, err) := R.lookupIP mxhostname
  if err then
    return (false, none)
  addrLoop R mxaddr (mxaddr.length + 2) 0

/-- Lines 132-169 of `ValidateDomainOfEmail`, which are lines 201-238 of `ValidateDomain`
word for word: normalisation, the trailing dot, the table and the checks. -/
def dnsName (R : Resolver) (domain : GoString) : Run Verdict :=
  match R.toASCII domain with
  | none => .ret (false, some .ErrPunycodeConversion)
  | some idn =>
    let idn := if strIndex idn (utf8 ".") ≠ (idn.length : Int) then idn ++ utf8 "." else idn
    let accept := (mapGet commondomains idn).2
    if accept then .ret (true, none)
    else if !accept then .ret (false, none)
    else domainChecks R idn

/-- The function `ValidateDomainOfEmail` (lines 115-170). -/
def ValidateDomainOfEmail (R : Resolver) (email : GoString) : Run Verdict := do
  if !contains email (utf8 "@") then
    return (false, none)
  let output := splitByte 0x40 email
  let domain ← index output ((output.length : Int) - 1)
  if matchesIPLiteral domain then
    let domain := replace domain (utf8 "[") [] 1
    let domain := replace domain (utf8 "]") [] domain.length
    parseAndCheck R domain
  else
    dnsName R domain

/-- The function `ValidateDomain` (lines 172-239). -/
def ValidateDomain (R : Resolver) (input : GoString) : Run Verdict :=
  if contains input (utf8 "@") then .ret (false, some .ErrDomainOnly)
  else if matchesIPLiteral input then
    let input := replace input (utf8 "[") [] 1
    let b := lastIndexByte input 0x5D
    let input := replace input (utf8 "]") [] b
    if startsWith input (utf8 "IPv6:") then
      let input := replace input (utf8 "IPv6:") [] 1
      if contains input (utf8 "::") then .ret (false, none)
      else parseAndCheck R input
    else parseAndCheck R input
  else dnsName R input

/-- The function `ValidateFullAddress` (lines 342-356). -/
def ValidateFullAddress (R : Resolver) (m : GoString) : Run Verdict := do
  let (r, err) ← ValidateLocalPartOfEmail m
  if err ≠ none then
    return (false, err)
  let (f, err) ← ValidateDomainOfEmail R m
  if err ≠ none then
    return (false, err)
  if r && f then
    return (true, none)
  else
    return (false, none)

/-- Lines 343-355 of `ValidateFullAddress` with the two calls of lines 343 and 347 taken as
parameters: `lp` stands for `ValidateLocalPartOfEmail` and `dm` for `ValidateDomainOfEmail`. -/
def fullAddressBody (lp dm : GoString → Run Verdict) (m : GoString) : Run Verdict := do
  let (r, err) ← lp m
  if err ≠ none then
    return (false, err)
  let (f, err) ← dm m
  if err ≠ none then
    return (false, err)
  if r && f then
    return (true, none)
  else
    return (false, none)

/-- Lines 136-138 and 205-207: the step from the normalised name to the key looked up in the
table, `if strings.Index(idn, ".") != len(idn) { idn = idn + "." }`. -/
def withTrailingDot (idn : GoString) : GoString :=
  if strIndex idn (utf8 ".") ≠ (idn.length : Int) then idn ++ utf8 "." else idn

/-! ## Resolvers used to evaluate the validators -/

/-- A resolver for plain ASCII names: `toASCII` returns its argument unchanged (what
`idna.ToASCII` does on a lower-case ASCII name such as `example.com`), no text parses as an
IP address, and every lookup fails. -/
def asciiResolver : Resolver where
  toASCII := fun s => some s
  parseIP := fun _ => none
  isPrivate := fun _ => false
  ipString := fun _ => []
  lookupMX := fun _ => ([], true)
  lookupIP := fun _ => ([], true)

/-- A resolver with a working network: `toASCII` returns its argument unchanged, the three
address texts `192.168.1.1`, `8.8.8.8` and `2001:4860:4860:0:0:0:0:8888` parse, of which
`192.168.1.1` is private, and every name has the one mail exchanger `mx.mailhost.io.`, which
resolves to the public address `8.8.8.8`. -/
def publicResolver : Resolver where
  toASCII := fun s => some s
  parseIP := fun s =>
    if s = utf8 "192.168.1.1" then some [192, 168, 1, 1]
    else if s = utf8 "8.8.8.8" then some [8, 8, 8, 8]
    else if s = utf8 "2001:4860:4860:0:0:0:0:8888" then
      some [0x20, 0x01, 0x48, 0x60, 0x48, 0x60, 0, 0, 0, 0, 0, 0, 0, 0, 0x88, 0x88]
    else none
  isPrivate := fun ip => ip.take 2 == [192, 168]
  ipString := fun ip =>
    if ip = [192, 168, 1, 1] then utf8 "192.168.1.1"
    else if ip = [8, 8, 8, 8] then utf8 "8.8.8.8"
    else utf8 "2001:4860:4860:0:0:0:0:8888"
  lookupMX := fun _ => ([utf8 "mx.mailhost.io."], false)
  lookupIP := fun _ => ([[8, 8, 8, 8]], false)

/-- A resolver whose `toASCII` fails on every name. -/
def failingResolver : Resolver where
  toASCII := fun _ => none
  parseIP := fun _ => none
  isPrivate := fun _ => false
  ipString := fun _ => []
  lookupMX := fun _ => ([], true)
  lookupIP := fun _ => ([], true)

/-! ## Facts about the string functions -/

theorem runeSize_pos (b : Nat) (bs : GoString) : 1 ≤ runeSize (b :: bs) := by
  unfold runeSize
  repeat' split
  all_goals first
    | omega
    | simp_all

theorem runeSize_le (s : GoString) : runeSize s ≤ s.length := by
  unfold runeSize
  repeat' split
  all_goals simp

theorem runeSize_ascii (b : Nat) (bs : GoString) (h : b < 0xC2) : runeSize (b :: bs) = 1 := by
  unfold runeSize
  simp [h]

/-- Inside the first rune, every byte after the first one is a continuation byte. -/
theorem runeSize_cont (s : GoString) (j : Nat) (h1 : 1 ≤ j) (h2 : j < runeSize s) :
    ∃ c, s.get? j = some c ∧ 0x80 ≤ c := by
  unfold runeSize at h2
  repeat' split at h2
  all_goals first
    | omega
    | (simp only [isCont, Bool.and_eq_true, decide_eq_true_eq] at *
       interval_cases j <;> simp <;> omega)

theorem explodeAux_cons (fuel b : Nat) (bs : GoString) :
    explodeAux (fuel + 1) (b :: bs)
      = (b :: bs).take (runeSize (b :: bs))
          :: explodeAux fuel ((b :: bs).drop (runeSize (b :: bs))) := rfl

theorem drop_runeSize_length (b : Nat) (bs : GoString) :
    ((b :: bs).drop (runeSize (b :: bs))).length ≤ bs.length := by
  have := runeSize_pos b bs
  simp only [List.length_drop, List.length_cons]
  omega

/-- The pieces of the rune split, put together again, are the string. -/
theorem explodeAux_flatten (fuel : Nat) (s : GoString) (h : s.length ≤ fuel) :
    (explodeAux fuel s).flatten = s := by
  induction fuel generalizing s with
  | zero =>
    have : s = [] := List.length_eq_zero.mp (Nat.le_zero.mp h)
    subst this
    rfl
  | succ fuel ih =>
    cases s with
    | nil => rfl
    | cons b bs =>
      have hd := drop_runeSize_length b bs
      simp only [List.length_cons] at h
      rw [explodeAux_cons, List.flatten_cons, ih _ (by omega), List.take_append_drop]

/-- No piece of the rune split is empty. -/
theorem explodeAux_ne_nil (fuel : Nat) (s : GoString) :
    ∀ x ∈ explodeAux fuel s, x ≠ [] := by
  induction fuel generalizing s with
  | zero => intro x hx; simp [explodeAux] at hx
  | succ fuel ih =>
    cases s with
    | nil => intro x hx; simp [explodeAux] at hx
    | cons b bs =>
      intro x hx
      rw [explodeAux_cons, List.mem_cons] at hx
      rcases hx with hx | hx
      · have := runeSize_pos b bs
        subst hx
        intro h0
        have hl := congrArg List.length h0
        simp only [List.length_take, List.length_cons, List.length_nil] at hl
        omega
      · exact ih _ x hx

/-- Two adjacent dots of the string are two adjacent one-dot pieces of its rune split. -/
theorem explodeAux_dots (fuel : Nat) (p q : GoString)
    (h : (p ++ 0x2E :: 0x2E :: q).length ≤ fuel) :
    ∃ i, (explodeAux fuel (p ++ 0x2E :: 0x2E :: q))[i]? = some [0x2E]
      ∧ (explodeAux fuel (p ++ 0x2E :: 0x2E :: q))[i + 1]? = some [0x2E] := by
  induction fuel generalizing p with
  | zero => simp at h
  | succ fuel ih =>
    cases p with
    | nil =>
      refine ⟨0, ?_⟩
      simp only [List.nil_append, List.length_cons] at h ⊢
      obtain ⟨f, rfl⟩ : ∃ f, fuel = f + 1 := ⟨fuel - 1, by omega⟩
      rw [explodeAux_cons, runeSize_ascii _ _ (by norm_num)]
      simp only [List.take_succ_cons, List.take_zero, List.drop_succ_cons, List.drop_zero]
      rw [explodeAux_cons, runeSize_ascii _ _ (by norm_num)]
      simp
    | cons b p =>
      have hn : runeSize (b :: p ++ 0x2E :: 0x2E :: q) ≤ (b :: p).length := by
        by_contra hlt
        obtain ⟨c, hc, hge⟩ := runeSize_cont (b :: p ++ 0x2E :: 0x2E :: q) (b :: p).length
          (by simp) (by omega)
        rw [List.get?_eq_getElem?, List.getElem?_append_right (le_refl _)] at hc
        simp at hc
        omega
      have hpos := runeSize_pos b (p ++ 0x2E :: 0x2E :: q)
      have hdrop : (b :: p ++ 0x2E :: 0x2E :: q).drop (runeSize (b :: p ++ 0x2E :: 0x2E :: q))
          = (b :: p).drop (runeSize (b :: p ++ 0x2E :: 0x2E :: q)) ++ 0x2E :: 0x2E :: q := by
        rw [List.drop_append_of_le_length hn]
      obtain ⟨i, h1, h2⟩ := ih ((b :: p).drop (runeSize (b :: p ++ 0x2E :: 0x2E :: q))) (by
        simp only [List.length_append, List.length_drop, List.length_cons,
          List.cons_append] at h hn hpos ⊢
        omega)
      refine ⟨i + 1, ?_, ?_⟩
      · show (explodeAux (fuel + 1) (b :: (p ++ 0x2E :: 0x2E :: q)))[i + 1]? = _
        rw [explodeAux_cons, List.getElem?_cons_succ]
        rw [← List.cons_append, hdrop]
        exact h1
      · show (explodeAux (fuel + 1) (b :: (p ++ 0x2E :: 0x2E :: q)))[i + 1 + 1]? = _
        rw [explodeAux_cons, List.getElem?_cons_succ]
        rw [← List.cons_append, hdrop]
        exact h2

/-! ## Facts about the local-part functions -/

@[simp] theorem bind_ret {α β : Type} (a : α) (f : α → Run β) : (Run.ret a >>= f) = f a := rfl

@[simp] theorem bind_panic {α β : Type} (p : Panic) (f : α → Run β) :
    (Run.panic p >>= f) = Run.panic p := rfl

@[simp] theorem pure_ret {α : Type} (a : α) : (pure a : Run α) = Run.ret a := rfl

theorem index_getElem? {α : Type} (l : List α) (i : Nat) (x : α) (h : l[i]? = some x) :
    index l (i : Int) = Run.ret x := by
  simp [index, h]

theorem index_neg {α : Type} (l : List α) (i : Int) (h : i < 0) :
    index l i = Run.panic Panic.indexOutOfRange := by
  simp [index, h]

theorem lpByteCheck_ret (l : List GoString) (cb : Nat) (sl ns : GoString)
    (h1 : l[cb + 1]? = some sl) (h0 : l[cb]? = some ns) :
    lpByteCheck l ((cb + 1 : Nat) : Int)
      = Run.ret (!(decide (sl = utf8 "." ∧ ns = utf8 ".")) && !(mapGet disallowed sl).1) := by
  have e1 := index_getElem? l (cb + 1) sl h1
  have e0 := index_getElem? l cb ns h0
  have : ((cb + 1 : Nat) : Int) - 1 = (cb : Int) := by omega
  unfold lpByteCheck
  rw [e1, this, e0]
  by_cases hd : sl = utf8 "." ∧ ns = utf8 "."
  · simp [hd]
  · cases hm : (mapGet disallowed sl).1 <;> simp [hd, hm]

theorem disallowed_dot : (mapGet disallowed (utf8 ".")).1 = true := by decide

/-- Scanning down from any index at or above a dot that is not the first piece ends in a
rejection: the dot is in the `disallowed` table. -/
theorem atomLoop_dot (l : List GoString) (i : Nat) (hne : ∀ x ∈ l, x ≠ [])
    (hi : l[i + 1]? = some (utf8 ".")) :
    ∀ k, i + 2 ≤ k → k ≤ l.length → atomLoop l k = Run.ret (false, none) := by
  intro k
  induction k with
  | zero => intro h; omega
  | succ k ih =>
    intro hk hlen
    obtain ⟨j, rfl⟩ : ∃ j, k = j + 1 := ⟨k - 1, by omega⟩
    have hsl : l[j + 1]? = some l[j + 1] := List.getElem?_eq_getElem (by omega)
    have hns : l[j]? = some l[j] := List.getElem?_eq_getElem (by omega)
    have hx : l[j + 1] ≠ [] := hne _ (List.getElem_mem _)
    rw [atomLoop, index_getElem? l (j + 1) _ hsl, lpByteCheck_ret l j _ _ hsl hns]
    by_cases hji : j = i
    · subst hji
      have : l[j + 1] = utf8 "." := by
        rw [hsl] at hi
        exact Option.some.inj hi
      have hd : utf8 "." ≠ [] := by decide
      simp [this, hd, disallowed_dot]
    · have := ih (by omega) (by omega)
      simp only [bind_ret, hx, if_false, pure_ret]
      split
      · rfl
      · simpa using this

theorem index_last (l : List GoString) (h : l ≠ []) :
    index l ((l.length : Int) - 1) = Run.ret (l.getLast h) := by
  have hpos : 0 < l.length := List.length_pos.mpr h
  have hc : (l.length : Int) - 1 = ((l.length - 1 : Nat) : Int) := by omega
  rw [hc]
  apply index_getElem?
  rw [List.getLast_eq_getElem]
  exact List.getElem?_eq_getElem _

theorem index_first (l : List GoString) (h : l ≠ []) :
    index l 0 = Run.ret (l.head h) := by
  cases l with
  | nil => exact absurd rfl h
  | cons a t => rfl

theorem flatten_head (l : List GoString) (h : l ≠ []) (c : Nat) (hc : l.head h = [c]) :
    l.flatten.head? = some c := by
  cases l with
  | nil => exact absurd rfl h
  | cons a t =>
    simp only [List.head_cons] at hc
    subst hc
    rfl

theorem flatten_getLast (l : List GoString) (h : l ≠ []) (c : Nat) (hc : l.getLast h = [c]) :
    l.flatten.getLast? = some c := by
  have hl : l = l.dropLast ++ [[c]] := by
    rw [← hc]
    exact (List.dropLast_append_getLast h).symm
  rw [hl]
  simp

/-- Lines 328-339 reject when the slice holds a dot after its first piece. -/
theorem atomScan_dot (l : List GoString) (i : Nat) (hne : ∀ x ∈ l, x ≠ [])
    (hi : l[i + 1]? = some (utf8 ".")) :
    atomScan l ((l.length : Int) - 1) = Run.ret (false, none) := by
  have hlen : i + 1 < l.length := by
    by_contra hlt
    rw [List.getElem?_eq_none (by omega)] at hi
    exact absurd hi (by simp)
  have hnil : l ≠ [] := by
    intro h0
    subst h0
    simp at hlen
  have hk : ((l.length : Int) - 1 + 1).toNat = l.length := by omega
  unfold atomScan
  rw [index_last l hnil, hk, atomLoop_dot l i hne hi l.length (by omega) (le_refl _)]
  simp only [bind_ret, pure_ret]
  split <;> rfl

/-- C6: a local part of 1 to 64 bytes that is not quoted-shaped, does not start with `(`, does
not end with `)` and holds two adjacent dots is rejected: `ValidateLocalPart` returns
`(false, nil)`. -/
theorem ValidateLocalPart_consecutive_dots (e : GoString)
    (hlen : 1 ≤ e.length ∧ e.length ≤ 64)
    (hshape : ¬ (e.head? = some 0x22 ∧ e.getLast? = some 0x22))
    (hopen : e.head? ≠ some 0x28)
    (hclose : e.getLast? ≠ some 0x29)
    (hdots : ∃ p q : GoString, e = p ++ 0x2E :: 0x2E :: q) :
    ValidateLocalPart e = Run.ret (false, none) := by
  obtain ⟨p, q, hpq⟩ := hdots
  have hfl : (explode e).flatten = e := explodeAux_flatten _ _ (le_refl _)
  have hne : ∀ x ∈ explode e, x ≠ [] := explodeAux_ne_nil _ _
  obtain ⟨i, -, hi⟩ : ∃ i, (explode e)[i]? = some [0x2E] ∧ (explode e)[i + 1]? = some [0x2E] := by
    rw [hpq]
    exact explodeAux_dots _ p q (le_refl _)
  have hnil : explode e ≠ [] := by
    intro h0
    rw [h0] at hi
    simp at hi
  have hq : ¬ (List.getLast (explode e) hnil = utf8 "\"" ∧ List.head (explode e) hnil = utf8 "\"") := by
    rintro ⟨h1, h2⟩
    apply hshape
    rw [← hfl]
    exact ⟨flatten_head _ hnil _ h2, flatten_getLast _ hnil _ h1⟩
  have ho : List.head (explode e) hnil ≠ utf8 "(" := by
    intro h1
    apply hopen
    rw [← hfl]
    exact flatten_head _ hnil _ h1
  have hc : List.getLast (explode e) hnil ≠ utf8 ")" := by
    intro h1
    apply hclose
    rw [← hfl]
    exact flatten_getLast _ hnil _ h1
  have hscan := atomScan_dot (explode e) i hne hi
  have htail : atomTail (explode e) = Run.ret (false, none) := by
    unfold atomTail
    simp only [index_last _ hnil, bind_ret, hc, if_false, hscan]
  have hbranch : atomBranch (explode e) = Run.ret (false, none) := by
    unfold atomBranch
    simp only [index_first _ hnil, bind_ret, ho, if_false, htail, pure_ret]
    split <;> rfl
  have hguard : ¬ ((e.length : Int) ≤ 0 ∨ (e.length : Int) > 64) := by omega
  unfold ValidateLocalPart
  rw [if_neg hguard]
  unfold localPartBody
  simp only [index_last _ hnil, index_first _ hnil, bind_ret, pure_ret]
  by_cases h1 : List.getLast (explode e) hnil = utf8 "\""
  · have h2 : List.head (explode e) hnil ≠ utf8 "\"" := fun h2 => hq ⟨h1, h2⟩
    simp [h1, h2, hbranch]
  · simp [h1, hbranch]


/-- C6, at the input `a..b`. -/
theorem ValidateLocalPart_consecutive_dots_witness :
    (1 ≤ (utf8 "a..b").length ∧ (utf8 "a..b").length ≤ 64)
      ∧ ValidateLocalPart (utf8 "a..b") = Run.ret (false, none) :=
  ⟨by decide,
    ValidateLocalPart_consecutive_dots (utf8 "a..b") (by decide) (by decide) (by decide)
      (by decide) ⟨utf8 "a", utf8 "b", by decide⟩⟩

theorem lastIndexFrom_absent (b : Nat) (d : GoString) (hd : b ∉ d) (off acc : Int) :
    lastIndexFrom b d off acc = acc := by
  induction d generalizing off with
  | nil => rfl
  | cons a d ih =>
    simp only [List.mem_cons, not_or] at hd
    rw [lastIndexFrom, if_neg (Ne.symm hd.1), ih hd.2]

/-- The last occurrence of a byte `b` that is followed by no further `b`. -/
theorem lastIndexFrom_append (b : Nat) (p d : GoString) (hd : b ∉ d) (off acc : Int) :
    lastIndexFrom b (p ++ b :: d) off acc = off + p.length := by
  induction p generalizing off acc with
  | nil =>
    rw [List.nil_append, lastIndexFrom, if_pos rfl, lastIndexFrom_absent b d hd]
    simp
  | cons a p ih =>
    rw [List.cons_append, lastIndexFrom, ih]
    simp only [List.length_cons]
    push_cast
    omega

theorem lastIndexByte_append (b : Nat) (p d : GoString) (hd : b ∉ d) :
    lastIndexByte (p ++ b :: d) b = p.length := by
  unfold lastIndexByte
  rw [lastIndexFrom_append b p d hd]
  simp

/-- C4: a string of length 0 or of more than 64 bytes is rejected by `ValidateLocalPart`, and
an address whose text `e` before the last `@` has such a length is rejected by
`ValidateLocalPartOfEmail`; both return `(false, nil)`. -/
theorem ValidateLocalPart_length_guard (e : GoString) (h : e.length = 0 ∨ 64 < e.length) :
    ValidateLocalPart e = Run.ret (false, none)
      ∧ ∀ d : GoString, 0x40 ∉ d →
          ValidateLocalPartOfEmail (e ++ 0x40 :: d) = Run.ret (false, none) := by
  have hguard : (e.length : Int) ≤ 0 ∨ (e.length : Int) > 64 := by omega
  refine ⟨?_, ?_⟩
  · unfold ValidateLocalPart
    rw [if_pos hguard]
  · intro d hd
    have hne : ¬ ((e.length : Int) = -1) := by omega
    have hb : ¬ ((e.length : Int) < 0 ∨ ((e ++ 0x40 :: d).length : Int) < (e.length : Int)) := by
      simp only [List.length_append, List.length_cons]
      push_cast
      omega
    unfold ValidateLocalPartOfEmail
    simp only [lastIndexByte_append 0x40 e d hd]
    rw [if_neg hne]
    unfold strTo
    rw [if_neg hb]
    simp only [Run.bind, Int.toNat_ofNat, List.take_left']
    rw [if_pos hguard]

/-- C4, at the empty local part of `@yahoo.com` and at a local part of 65 letters. -/
theorem ValidateLocalPart_length_guard_witness :
    ((utf8 "").length = 0 ∧ ValidateLocalPart (utf8 "") = Run.ret (false, none)
        ∧ ValidateLocalPartOfEmail (utf8 "@yahoo.com") = Run.ret (false, none))
      ∧ (64 < (List.replicate 65 0x61).length
        ∧ ValidateLocalPart (List.replicate 65 0x61) = Run.ret (false, none)
        ∧ ValidateLocalPartOfEmail (List.replicate 65 0x61 ++ utf8 "@yahoo.com")
            = Run.ret (false, none)) :=
  ⟨⟨by decide, (ValidateLocalPart_length_guard (utf8 "") (Or.inl (by decide))).1,
      (ValidateLocalPart_length_guard (utf8 "") (Or.inl (by decide))).2 (utf8 "yahoo.com")
        (by decide)⟩,
    ⟨by decide, (ValidateLocalPart_length_guard (List.replicate 65 0x61) (Or.inr (by decide))).1,
      (ValidateLocalPart_length_guard (List.replicate 65 0x61) (Or.inr (by decide))).2
        (utf8 "yahoo.com") (by decide)⟩⟩

/-- C1: at `user@yahoo.com` the local-part scan reads `r[slice-1]` with `slice = 0`, so
`ValidateFullAddress` stops with an index out of range, whatever the resolver answers, and
does not return `(true, nil)`. -/
theorem ValidateFullAddress_user_yahoo_panics (R : Resolver) :
    ValidateFullAddress R (utf8 "user@yahoo.com") = Run.panic Panic.indexOutOfRange := by
  have h : ValidateLocalPartOfEmail (utf8 "user@yahoo.com")
      = Run.panic Panic.indexOutOfRange := by decide
  unfold ValidateFullAddress
  rw [h]
  rfl

/-- C2: on the two-byte input `ab` the run of `ValidateLocalPart` does not return a verdict: it
stops with an index out of range (`r[slice-1]` with `slice = 0` in `lpByteCheck`). -/
theorem ValidateLocalPart_ab_panics :
    ValidateLocalPart (utf8 "ab") = Run.panic Panic.indexOutOfRange := by decide

/-- C3: on a local part of exactly 64 letters `a` the run of `ValidateLocalPart` stops with an
index out of range and does not return `(true, nil)`. -/
theorem ValidateLocalPart_64_letters_panics :
    (List.replicate 64 0x61).length = 64
      ∧ ValidateLocalPart (List.replicate 64 0x61) = Run.panic Panic.indexOutOfRange := by
  decide

/-- C5: the quoted local part with a backslash-escaped quote inside, in the 6-byte spelling
(quote, a, backslash, quote, b, quote) and in the spelling with two backslashes, is rejected:
`ValidateLocalPart` returns `(false, nil)`, because the closing quote is itself tested for a
preceding backslash. -/
theorem ValidateLocalPart_escaped_quote_rejected :
    ValidateLocalPart (utf8 "\"a\\\"b\"") = Run.ret (false, none)
      ∧ ValidateLocalPart (utf8 "\"a\\\\\"b\"") = Run.ret (false, none) := by
  decide

/-- C7: on the 7-byte input `(éé).`, which ends with a dot, `ValidateLocalPart` does not return
`(false, nil)`: the byte offset 5 of `)` is used as an index into the 5 pieces of `l`, the
slice becomes empty and `l[-1]` is read.  The inputs `.ab` and `ab.` are rejected. -/
theorem ValidateLocalPart_comment_multibyte_dot_panics :
    (utf8 "(éé).").getLast? = some 0x2E
      ∧ ValidateLocalPart (utf8 "(éé).") = Run.panic Panic.indexOutOfRange
      ∧ ValidateLocalPart (utf8 ".ab") = Run.ret (false, none)
      ∧ ValidateLocalPart (utf8 "ab.") = Run.ret (false, none) := by
  decide

/-- C8: on `(comment)ab` the run of `ValidateLocalPart` does not return `(true, nil)`: the cut
`l[cc:]` keeps the `)` as first piece, and the scan stops with an index out of range when it
reaches that piece. -/
theorem ValidateLocalPart_leading_comment_panics :
    sliceFrom (explode (utf8 "(comment)ab")) 8 = Run.ret [utf8 ")", utf8 "a", utf8 "b"]
      ∧ ValidateLocalPart (utf8 "(comment)ab") = Run.panic Panic.indexOutOfRange := by
  decide

/-- C9: on `ab()` the run of `ValidateLocalPart` does not return `(true, nil)`: after the cut
`l = l[:2]` the index `cb = 3` computed before the cut is read, which is out of range. -/
theorem ValidateLocalPart_trailing_comment_panics :
    ValidateLocalPart (utf8 "ab()") = Run.panic Panic.indexOutOfRange := by decide

/-- C10: `example.com.` is stored with the verdict `false`, yet with `toASCII` the identity on
`example.com` both `ValidateDomainOfEmail` on `user@example.com` and `ValidateDomain` on
`example.com` return `(true, nil)`: the test reads whether the key is present, not the
stored boolean. -/
theorem ValidateDomain_example_com_accepted (R : Resolver)
    (h : R.toASCII (utf8 "example.com") = some (utf8 "example.com")) :
    (mapGet commondomains (utf8 "example.com.")).1 = false
      ∧ ValidateDomainOfEmail R (utf8 "user@example.com") = Run.ret (true, none)
      ∧ ValidateDomain R (utf8 "example.com") = Run.ret (true, none) := by
  have hdns : dnsName R (utf8 "example.com") = Run.ret (true, none) := by
    have hdot : strIndex (utf8 "example.com") (utf8 ".")
        ≠ ((utf8 "example.com").length : Int) := by decide
    have hkey : (mapGet commondomains (utf8 "example.com" ++ utf8 ".")).2 = true := by decide
    unfold dnsName
    rw [h]
    simp only [hdot, hkey, ne_eq, not_false_eq_true, if_true]
  have hc : contains (utf8 "user@example.com") (utf8 "@") = true := by decide
  have hs : index (splitByte 0x40 (utf8 "user@example.com"))
      (((splitByte 0x40 (utf8 "user@example.com")).length : Int) - 1)
        = Run.ret (utf8 "example.com") := by decide
  have hm : matchesIPLiteral (utf8 "example.com") = false := by decide
  have hc2 : contains (utf8 "example.com") (utf8 "@") = false := by decide
  refine ⟨by decide, ?_, ?_⟩
  · unfold ValidateDomainOfEmail
    simp [hc, hs, hm, hdns]
  · unfold ValidateDomain
    simp [hc2, hm, hdns]

/-- C10, with the resolver that leaves ASCII names unchanged. -/
theorem ValidateDomain_example_com_accepted_witness :
    asciiResolver.toASCII (utf8 "example.com") = some (utf8 "example.com")
      ∧ ValidateDomainOfEmail asciiResolver (utf8 "user@example.com") = Run.ret (true, none) :=
  ⟨rfl, (ValidateDomain_example_com_accepted asciiResolver rfl).2.1⟩

/-! ## Facts about the domain functions -/

theorem utf8_at : utf8 "@" = [0x40] := by decide

theorem utf8_dot : utf8 "." = [0x2E] := by decide

/-- A one-byte string is found in `s` exactly when the byte occurs in `s`. -/
theorem indexFrom_byte_nonneg (b : Nat) (s : GoString) (off : Int) (hoff : 0 ≤ off) :
    0 ≤ indexFrom [b] s off ↔ b ∈ s := by
  induction s generalizing off with
  | nil => simp [indexFrom, startsWith]
  | cons a s ih =>
    by_cases hab : a = b
    · subst hab
      simp [indexFrom, startsWith, hoff]
    · have hba : ¬ b = a := fun h => hab h.symm
      simp [indexFrom, startsWith, hab, hba, ih (off + 1) (by omega)]

theorem contains_at (s : GoString) : contains s (utf8 "@") = true ↔ 0x40 ∈ s := by
  rw [utf8_at]
  unfold contains strIndex
  rw [decide_eq_true_iff]
  exact indexFrom_byte_nonneg 0x40 s 0 (le_refl _)

theorem contains_at_false (s : GoString) (h : 0x40 ∉ s) : contains s (utf8 "@") = false := by
  cases hc : contains s (utf8 "@")
  · rfl
  · exact absurd ((contains_at s).mp hc) h

/-- A one-byte string, when found, is found before the end of `s`. -/
theorem indexFrom_byte_lt (b : Nat) (s : GoString) (off : Int) :
    indexFrom [b] s off = -1 ∨ indexFrom [b] s off < off + s.length := by
  induction s generalizing off with
  | nil => simp [indexFrom, startsWith]
  | cons a s ih =>
    by_cases hab : a = b
    · subst hab
      right
      simp only [indexFrom, startsWith, beq_self_eq_true, Bool.and_self, if_true,
        List.length_cons]
      push_cast
      omega
    · rcases ih (off + 1) with h | h
      · left
        simpa [indexFrom, startsWith, hab] using h
      · right
        have hst : startsWith (a :: s) [b] = false := by simp [startsWith, hab]
        rw [indexFrom, hst]
        simp only [Bool.false_eq_true, if_false, List.length_cons]
        push_cast
        omega

/-- The test of lines 136 and 205 always succeeds: a dot is appended to every name. -/
theorem withTrailingDot_eq (idn : GoString) : withTrailingDot idn = idn ++ utf8 "." := by
  have h : strIndex idn (utf8 ".") ≠ (idn.length : Int) := by
    rw [utf8_dot]
    unfold strIndex
    rcases indexFrom_byte_lt 0x2E idn 0 with h | h <;> omega
  unfold withTrailingDot
  rw [if_pos h]

/-- Lines 132-143 and 201-212: the result is whether the name with a dot appended is a key
of the table; the statements after line 143 (resp. 212) are not reached. -/
theorem dnsName_eq (R : Resolver) (domain : GoString) :
    dnsName R domain
      = match R.toASCII domain with
        | none => Run.ret (false, some GoError.ErrPunycodeConversion)
        | some n => Run.ret ((mapGet commondomains (withTrailingDot n)).2, none) := by
  unfold dnsName withTrailingDot
  cases R.toASCII domain with
  | none => rfl
  | some n =>
    simp only
    split <;> cases (mapGet commondomains _).2 <;> simp

theorem splitByte_absent (sep : Nat) (d : GoString) (h : sep ∉ d) : splitByte sep d = [d] := by
  induction d with
  | nil => rfl
  | cons a d ih =>
    simp only [List.mem_cons, not_or] at h
    rw [splitByte, if_neg (Ne.symm h.1), ih h.2]

/-- The last element of the split at `sep` is the text after the last `sep`. -/
theorem splitByte_append (sep : Nat) (p d : GoString) (h : sep ∉ d) :
    ∃ pre : List GoString, pre ≠ [] ∧ splitByte sep (p ++ sep :: d) = pre ++ [d] := by
  induction p with
  | nil =>
    refine ⟨[[]], by simp, ?_⟩
    rw [List.nil_append, splitByte, if_pos rfl, splitByte_absent sep d h]
    rfl
  | cons a p ih =>
    obtain ⟨pre, hpre, heq⟩ := ih
    by_cases ha : a = sep
    · refine ⟨[] :: pre, by simp, ?_⟩
      rw [List.cons_append, splitByte, if_pos ha, heq]
      rfl
    · cases pre with
      | nil => exact absurd rfl hpre
      | cons q qs =>
        refine ⟨(a :: q) :: qs, by simp, ?_⟩
        rw [List.cons_append, splitByte, if_neg ha, heq]
        rfl

theorem index_split_last (p d : GoString) (h : 0x40 ∉ d) :
    index (splitByte 0x40 (p ++ 0x40 :: d))
      (((splitByte 0x40 (p ++ 0x40 :: d)).length : Int) - 1) = Run.ret d := by
  obtain ⟨pre, -, heq⟩ := splitByte_append 0x40 p d h
  rw [heq, index_last _ (by simp)]
  simp

theorem replaceAux_zero (old new : GoString) (fuel : Nat) (s : GoString) :
    replaceAux old new fuel s 0 = s := by
  cases fuel with
  | zero => simp [replaceAux]
  | succ fuel =>
    cases s with
    | nil => simp [replaceAux]
    | cons a s => simp [replaceAux]

/-- Line 122 and 177: removing the first `[` of a string that starts with `[`. -/
theorem replace_open (s : GoString) : replace (0x5B :: s) (utf8 "[") [] 1 = s := by
  have h : utf8 "[" = [0x5B] := by decide
  rw [h]
  simp [replace, replaceAux, startsWith, replaceAux_zero]

theorem replaceAux_close (c : GoString) (hc : 0x5D ∉ c) (fuel : Nat) (n : Int) (hn : n ≠ 0)
    (hf : c.length + 1 ≤ fuel) :
    replaceAux [0x5D] [] fuel (c ++ [0x5D]) n = c := by
  induction c generalizing fuel with
  | nil =>
    obtain ⟨f, rfl⟩ : ∃ f, fuel = f + 1 := ⟨fuel - 1, by simp at hf; omega⟩
    simp only [List.nil_append, replaceAux, if_neg hn, startsWith, beq_self_eq_true,
      Bool.and_self, if_true, List.length_cons, List.length_nil, List.drop_succ_cons,
      List.drop_zero, List.nil_append]
    cases f <;> rfl
  | cons a c ih =>
    simp only [List.mem_cons, not_or] at hc
    obtain ⟨f, rfl⟩ : ∃ f, fuel = f + 1 := ⟨fuel - 1, by simp at hf; omega⟩
    have hst : startsWith (a :: (c ++ [0x5D])) [0x5D] = false := by
      have : ¬ a = 0x5D := fun h => hc.1 h.symm
      simp [startsWith, this]
    simp only [List.length_cons] at hf
    rw [List.cons_append, replaceAux, if_neg hn, hst]
    simp only [Bool.false_eq_true, if_false]
    rw [ih hc.2 f (by omega)]

/-- Line 123: removing every `]` of `c]` when `c` holds none. -/
theorem replace_close (c : GoString) (hc : 0x5D ∉ c) (n : Int) (hn : n ≠ 0) :
    replace (c ++ [0x5D]) (utf8 "]") [] n = c := by
  have h : utf8 "]" = [0x5D] := by decide
  rw [h]
  unfold replace
  exact replaceAux_close c hc _ n hn (by simp)

theorem matchesIPLiteral_brackets (c : GoString) :
    matchesIPLiteral (0x5B :: (c ++ [0x5D])) = c.all inLiteralClass := by
  simp [matchesIPLiteral]

/-- Lines 116-131 on an address whose text after the last `@` is `d`. -/
theorem ValidateDomainOfEmail_split (R : Resolver) (p d : GoString) (h : 0x40 ∉ d) :
    ValidateDomainOfEmail R (p ++ 0x40 :: d)
      = if matchesIPLiteral d then
          parseAndCheck R (replace (replace d (utf8 "[") [] 1) (utf8 "]") []
            (replace d (utf8 "[") [] 1).length)
        else dnsName R d := by
  have hc : contains (p ++ 0x40 :: d) (utf8 "@") = true := (contains_at _).mpr (by simp)
  unfold ValidateDomainOfEmail
  simp only [hc, Bool.not_true, Bool.false_eq_true, if_false, index_split_last p d h,
    bind_ret, pure_ret]

theorem parseAndCheck_eq (R : Resolver) (s : GoString) :
    parseAndCheck R s
      = Run.ret (match R.parseIP s with
          | some i => !R.isPrivate i
          | none => false, none) := by
  unfold parseAndCheck
  cases R.parseIP s with
  | none => rfl
  | some i => cases h : R.isPrivate i <;> simp [h]

/-- The presence flag of a map read says whether the key is a key of the map. -/
theorem mapGet_snd (m : List (GoString × Bool)) (k : GoString) :
    (mapGet m k).2 = decide (k ∈ m.map Prod.fst) := by
  induction m with
  | nil => simp [mapGet]
  | cons kv m ih =>
    obtain ⟨k', v⟩ := kv
    by_cases hk : k = k'
    · simp [mapGet, hk]
    · simp [mapGet, hk, ih]

/-- The last occurrence of a byte splits the string around it. -/
theorem split_at_last (b : Nat) (e : GoString) (h : b ∈ e) :
    ∃ p d : GoString, e = p ++ b :: d ∧ b ∉ d := by
  obtain ⟨as, bs, heq, hno⟩ := List.eq_append_cons_of_mem (List.mem_reverse.mpr h)
  refine ⟨bs.reverse, as.reverse, ?_, by simpa using hno⟩
  have := congrArg List.reverse heq
  simpa using this

/-- C12: `ValidateDomain` returns the error `ErrDomainOnly` exactly when the input holds the
byte `@`, and then the result is `(false, ErrDomainOnly)`. -/
theorem ValidateDomain_separator_guard (R : Resolver) (input : GoString) :
    ((∃ v, ValidateDomain R input = Run.ret (v, some GoError.ErrDomainOnly)) ↔ 0x40 ∈ input)
      ∧ (ValidateDomain R input = Run.ret (false, some GoError.ErrDomainOnly)
          ↔ 0x40 ∈ input) := by
  by_cases h : 0x40 ∈ input
  · have hv : ValidateDomain R input = Run.ret (false, some GoError.ErrDomainOnly) := by
      unfold ValidateDomain
      rw [if_pos ((contains_at input).mpr h)]
    exact ⟨⟨fun _ => h, fun _ => ⟨false, hv⟩⟩, ⟨fun _ => h, fun _ => hv⟩⟩
  · have hno : ∀ v, ValidateDomain R input ≠ Run.ret (v, some GoError.ErrDomainOnly) := by
      intro v
      unfold ValidateDomain
      rw [contains_at_false input h]
      simp only [Bool.false_eq_true, if_false, parseAndCheck_eq, dnsName_eq]
      cases R.toASCII input <;> (repeat' split) <;> simp
    exact ⟨⟨fun ⟨v, hv⟩ => absurd hv (hno v), fun h' => absurd h' h⟩,
      ⟨fun hv => absurd hv (hno false), fun h' => absurd h' h⟩⟩

/-- C13: `ValidateDomainOfEmail` returns a non-nil error exactly when the input has a last `@`,
the text `d` after it is not bracket-literal-shaped and `toASCII` fails on `d`; the result
is then `(false, ErrPunycodeConversion)`, and in every other case the error returned is
nil. -/
theorem ValidateDomainOfEmail_error_channel (R : Resolver) (e : GoString) :
    ((∃ v err, ValidateDomainOfEmail R e = Run.ret (v, some err))
        ↔ ∃ p d : GoString, e = p ++ 0x40 :: d ∧ 0x40 ∉ d
            ∧ matchesIPLiteral d = false ∧ R.toASCII d = none)
      ∧ ((∃ p d : GoString, e = p ++ 0x40 :: d ∧ 0x40 ∉ d
            ∧ matchesIPLiteral d = false ∧ R.toASCII d = none)
          → ValidateDomainOfEmail R e = Run.ret (false, some GoError.ErrPunycodeConversion))
      ∧ ((¬ ∃ p d : GoString, e = p ++ 0x40 :: d ∧ 0x40 ∉ d
            ∧ matchesIPLiteral d = false ∧ R.toASCII d = none)
          → ∃ v, ValidateDomainOfEmail R e = Run.ret (v, none)) := by
  have hyes : (∃ p d : GoString, e = p ++ 0x40 :: d ∧ 0x40 ∉ d
      ∧ matchesIPLiteral d = false ∧ R.toASCII d = none)
      → ValidateDomainOfEmail R e = Run.ret (false, some GoError.ErrPunycodeConversion) := by
    rintro ⟨p, d, rfl, hd, hlit, hasc⟩
    rw [ValidateDomainOfEmail_split R p d hd, hlit, dnsName_eq, hasc]
    simp
  have hnot : (¬ ∃ p d : GoString, e = p ++ 0x40 :: d ∧ 0x40 ∉ d
      ∧ matchesIPLiteral d = false ∧ R.toASCII d = none)
      → ∃ v, ValidateDomainOfEmail R e = Run.ret (v, none) := by
    intro hP
    by_cases hat : 0x40 ∈ e
    · obtain ⟨p, d, rfl, hd⟩ := split_at_last 0x40 e hat
      rw [ValidateDomainOfEmail_split R p d hd]
      cases hlit : matchesIPLiteral d
      · cases hasc : R.toASCII d with
        | none => exact absurd ⟨p, d, rfl, hd, hlit, hasc⟩ hP
        | some n =>
          rw [dnsName_eq, hasc]
          simp only [Bool.false_eq_true, if_false]
          exact ⟨_, rfl⟩
      · rw [parseAndCheck_eq]
        simp only [if_true]
        exact ⟨_, rfl⟩
    · refine ⟨false, ?_⟩
      unfold ValidateDomainOfEmail
      simp [contains_at_false e hat]
  refine ⟨⟨?_, fun hP => ⟨false, _, hyes hP⟩⟩, hyes, hnot⟩
  rintro ⟨v, err, hv⟩
  by_contra hP
  obtain ⟨v', hv'⟩ := hnot hP
  rw [hv] at hv'
  simp at hv'

/-- C13, at `user@bad` with a resolver whose `toASCII` fails, and at `user@gmail.com`. -/
theorem ValidateDomainOfEmail_error_channel_witness :
    ValidateDomainOfEmail failingResolver (utf8 "user@bad")
        = Run.ret (false, some GoError.ErrPunycodeConversion)
      ∧ ((∃ v err, ValidateDomainOfEmail asciiResolver (utf8 "user@gmail.com")
            = Run.ret (v, some err)) ↔ ∃ p d : GoString, utf8 "user@gmail.com" = p ++ 0x40 :: d
              ∧ 0x40 ∉ d ∧ matchesIPLiteral d = false ∧ asciiResolver.toASCII d = none) :=
  ⟨(ValidateDomainOfEmail_error_channel failingResolver (utf8 "user@bad")).2.1
      ⟨utf8 "user", utf8 "bad", by decide, by decide, by decide, rfl⟩,
    (ValidateDomainOfEmail_error_channel asciiResolver (utf8 "user@gmail.com")).1⟩

/-- C14: when the text after the last `@` is `[c]` with `c` free of `[`, `]` and `g`..`z`,
`ValidateDomainOfEmail` returns `(true, nil)` if `parseIP c` succeeds with a non-private
address and `(false, nil)` otherwise; `parseIP` is applied to exactly `c`. -/
theorem ValidateDomainOfEmail_ip_literal (R : Resolver) (p c : GoString) (hat : 0x40 ∉ c)
    (hclass : ∀ b ∈ c, inLiteralClass b = true) :
    ValidateDomainOfEmail R (p ++ 0x40 :: 0x5B :: (c ++ [0x5D]))
      = Run.ret (match R.parseIP c with
          | some i => !R.isPrivate i
          | none => false, none) := by
  have hd : 0x40 ∉ 0x5B :: (c ++ [0x5D]) := by simp [hat]
  have hclose : 0x5D ∉ c := by
    intro hmem
    have := hclass _ hmem
    simp [inLiteralClass] at this
  have hall : c.all inLiteralClass = true := List.all_eq_true.mpr hclass
  rw [ValidateDomainOfEmail_split R p _ hd, matchesIPLiteral_brackets, hall, if_pos rfl,
    replace_open, replace_close c hclose _ (by simp; omega), parseAndCheck_eq]

/-- C14, at `user@[192.168.1.1]` (private, rejected) and `user@[8.8.8.8]` (public, accepted). -/
theorem ValidateDomainOfEmail_ip_literal_witness :
    (publicResolver.parseIP (utf8 "192.168.1.1") = some [192, 168, 1, 1]
        ∧ publicResolver.isPrivate [192, 168, 1, 1] = true
        ∧ ValidateDomainOfEmail publicResolver (utf8 "user@[192.168.1.1]")
            = Run.ret (false, none))
      ∧ ValidateDomainOfEmail publicResolver (utf8 "user@[8.8.8.8]") = Run.ret (true, none) :=
  ⟨⟨by decide, by decide,
      ValidateDomainOfEmail_ip_literal publicResolver (utf8 "user") (utf8 "192.168.1.1")
        (by decide) (by decide)⟩,
    ValidateDomainOfEmail_ip_literal publicResolver (utf8 "user") (utf8 "8.8.8.8")
      (by decide) (by decide)⟩

/-- A key whose first byte starts no key of the map is absent from it. -/
theorem mapGet_head_absent (m : List (GoString × Bool)) (k : GoString)
    (h : ∀ kv ∈ m, kv.1.head? ≠ k.head?) : mapGet m k = (false, false) := by
  induction m with
  | nil => rfl
  | cons kv m ih =>
    obtain ⟨k', v⟩ := kv
    have hne : k ≠ k' := by
      intro heq
      exact h (k', v) (List.mem_cons_self _ _) (by rw [heq])
    rw [mapGet, if_neg hne]
    exact ih fun kv hkv => h kv (List.mem_cons_of_mem _ hkv)

theorem commondomains_no_bracket : ∀ kv ∈ commondomains, kv.1.head? ≠ some 0x5B := by decide

/-- The pattern of lines 121 and 176 does not match a text that starts with `[IPv6:`: the
letter `v` is among the excluded letters `g`..`z`. -/
theorem matchesIPLiteral_IPv6 (a : GoString) :
    matchesIPLiteral (utf8 "[IPv6:" ++ a ++ utf8 "]") = false := by
  have h1 : utf8 "[IPv6:" = 0x5B :: utf8 "IPv6:" := by decide
  have h2 : utf8 "]" = [0x5D] := by decide
  have h3 : utf8 "IPv6:" = [0x49, 0x50, 0x76, 0x36, 0x3A] := by decide
  rw [h1, h2, List.cons_append, List.cons_append, matchesIPLiteral_brackets, h3]
  simp [inLiteralClass]

/-- C15: with `toASCII` the identity on the input, `ValidateDomain` on `[IPv6:a]` returns
`(false, nil)` for every `a` without `@`: the input does not match the IP-literal pattern, so
the prefix is never stripped and `a` is never parsed; the name is looked up in the table. -/
theorem ValidateDomain_IPv6_literal_rejected (R : Resolver) (a : GoString) (hat : 0x40 ∉ a)
    (hid : R.toASCII (utf8 "[IPv6:" ++ a ++ utf8 "]") = some (utf8 "[IPv6:" ++ a ++ utf8 "]")) :
    ValidateDomain R (utf8 "[IPv6:" ++ a ++ utf8 "]") = Run.ret (false, none) := by
  have h1 : utf8 "[IPv6:" = [0x5B, 0x49, 0x50, 0x76, 0x36, 0x3A] := by decide
  have h2 : utf8 "]" = [0x5D] := by decide
  have hno : 0x40 ∉ utf8 "[IPv6:" ++ a ++ utf8 "]" := by
    rw [h1, h2]
    simp [hat]
  have hkey : mapGet commondomains (withTrailingDot (utf8 "[IPv6:" ++ a ++ utf8 "]"))
      = (false, false) := by
    apply mapGet_head_absent
    intro kv hkv
    rw [withTrailingDot_eq, h1]
    exact commondomains_no_bracket kv hkv
  unfold ValidateDomain
  rw [contains_at_false _ hno, matchesIPLiteral_IPv6, dnsName_eq, hid]
  simp only [Bool.false_eq_true, if_false, hkey]

/-- C15, at `[IPv6:2001:4860:4860:0:0:0:0:8888]`, whose address text has no `::` and parses to
a non-private address. -/
theorem ValidateDomain_IPv6_literal_rejected_witness :
    contains (utf8 "2001:4860:4860:0:0:0:0:8888") (utf8 "::") = false
      ∧ (∃ ip, publicResolver.parseIP (utf8 "2001:4860:4860:0:0:0:0:8888") = some ip
          ∧ publicResolver.isPrivate ip = false)
      ∧ ValidateDomain publicResolver (utf8 "[IPv6:2001:4860:4860:0:0:0:0:8888]")
          = Run.ret (false, none) :=
  ⟨by decide,
    ⟨[0x20, 0x01, 0x48, 0x60, 0x48, 0x60, 0, 0, 0, 0, 0, 0, 0, 0, 0x88, 0x88], by decide,
      by decide⟩,
    ValidateDomain_IPv6_literal_rejected publicResolver (utf8 "2001:4860:4860:0:0:0:0:8888")
      (by decide) rfl⟩

/-- C16: the trailing-dot step appends a dot to every name, so it changes the dot-terminated
`gmail.com.` into `gmail.com..`; with `toASCII` the identity on both names `ValidateDomain`
returns `(false, nil)` on `gmail.com.` and `(true, nil)` on `gmail.com`. -/
theorem ValidateDomain_trailing_dot_not_idempotent (R : Resolver)
    (h1 : R.toASCII (utf8 "gmail.com.") = some (utf8 "gmail.com."))
    (h2 : R.toASCII (utf8 "gmail.com") = some (utf8 "gmail.com")) :
    (∀ n : GoString, withTrailingDot n = n ++ utf8 ".")
      ∧ withTrailingDot (utf8 "gmail.com.") = utf8 "gmail.com.."
      ∧ withTrailingDot (withTrailingDot (utf8 "gmail.com")) ≠ withTrailingDot (utf8 "gmail.com")
      ∧ ValidateDomain R (utf8 "gmail.com.") = Run.ret (false, none)
      ∧ ValidateDomain R (utf8 "gmail.com") = Run.ret (true, none) := by
  have hc1 : contains (utf8 "gmail.com.") (utf8 "@") = false := by decide
  have hc2 : contains (utf8 "gmail.com") (utf8 "@") = false := by decide
  have hm1 : matchesIPLiteral (utf8 "gmail.com.") = false := by decide
  have hm2 : matchesIPLiteral (utf8 "gmail.com") = false := by decide
  have hk1 : (mapGet commondomains (withTrailingDot (utf8 "gmail.com."))).2 = false := by
    decide
  have hk2 : (mapGet commondomains (withTrailingDot (utf8 "gmail.com"))).2 = true := by
    decide
  refine ⟨withTrailingDot_eq, by decide, by decide, ?_, ?_⟩
  · unfold ValidateDomain
    rw [hc1, hm1, dnsName_eq, h1]
    simp [hk1]
  · unfold ValidateDomain
    rw [hc2, hm2, dnsName_eq, h2]
    simp [hk2]

/-- C16, with the resolver that leaves ASCII names unchanged. -/
theorem ValidateDomain_trailing_dot_not_idempotent_witness :
    ValidateDomain asciiResolver (utf8 "gmail.com.") = Run.ret (false, none)
      ∧ ValidateDomain asciiResolver (utf8 "gmail.com") = Run.ret (true, none) :=
  ⟨(ValidateDomain_trailing_dot_not_idempotent asciiResolver rfl rfl).2.2.2.1,
    (ValidateDomain_trailing_dot_not_idempotent asciiResolver rfl rfl).2.2.2.2⟩

/-- C17: `ValidateFullAddress` is lines 343-355 run on `ValidateLocalPartOfEmail` and
`ValidateDomainOfEmail`, and whatever two validators `lp` and `dm` those lines are run on, when
both return on `m` the result is the local-part error if there is one, else the domain error if
there is one, else the conjunction of the two verdicts; it is `(true, nil)` exactly when both
return `(true, nil)`.  In particular this holds of `ValidateFullAddress` itself. -/
theorem ValidateFullAddress_conjunction (R : Resolver) (lp dm : GoString → Run Verdict)
    (m : GoString) (r f : Bool) (e1 e2 : Option GoError)
    (hl : lp m = Run.ret (r, e1)) (hd : dm m = Run.ret (f, e2)) :
    (∀ x : GoString, ValidateFullAddress R x
        = fullAddressBody ValidateLocalPartOfEmail (ValidateDomainOfEmail R) x)
      ∧ fullAddressBody lp dm m
          = Run.ret (if e1 ≠ none then (false, e1)
              else if e2 ≠ none then (false, e2) else (r && f, none))
      ∧ (fullAddressBody lp dm m = Run.ret (true, none)
          ↔ (r, e1) = (true, none) ∧ (f, e2) = (true, none))
      ∧ (∀ (r' f' : Bool) (e1' e2' : Option GoError),
          ValidateLocalPartOfEmail m = Run.ret (r', e1') →
          ValidateDomainOfEmail R m = Run.ret (f', e2') →
          ValidateFullAddress R m
              = Run.ret (if e1' ≠ none then (false, e1')
                  else if e2' ≠ none then (false, e2') else (r' && f', none))
            ∧ (ValidateFullAddress R m = Run.ret (true, none)
                ↔ (r', e1') = (true, none) ∧ (f', e2') = (true, none))) := by
  have hbody : ∀ (lp dm : GoString → Run Verdict) (r f : Bool) (e1 e2 : Option GoError),
      lp m = Run.ret (r, e1) → dm m = Run.ret (f, e2) →
      fullAddressBody lp dm m
        = Run.ret (if e1 ≠ none then (false, e1)
            else if e2 ≠ none then (false, e2) else (r && f, none)) := by
    intro lp dm r f e1 e2 hl hd
    unfold fullAddressBody
    rw [hl, hd]
    cases e1 <;> cases e2 <;> cases r <;> cases f <;> rfl
  have hiff : ∀ (r f : Bool) (e1 e2 : Option GoError),
      ((Run.ret (if e1 ≠ none then (false, e1)
          else if e2 ≠ none then (false, e2) else (r && f, none)) : Run Verdict)
        = Run.ret (true, none)
        ↔ (r, e1) = (true, none) ∧ (f, e2) = (true, none)) := by
    intro r f e1 e2
    cases e1 <;> cases e2 <;> cases r <;> cases f <;> simp
  have hlink : ∀ x : GoString, ValidateFullAddress R x
      = fullAddressBody ValidateLocalPartOfEmail (ValidateDomainOfEmail R) x := fun _ => rfl
  refine ⟨hlink, hbody lp dm r f e1 e2 hl hd, ?_, ?_⟩
  · rw [hbody lp dm r f e1 e2 hl hd]
    exact hiff r f e1 e2
  · intro r' f' e1' e2' hl' hd'
    rw [hlink m, hbody _ _ r' f' e1' e2' hl' hd']
    exact ⟨rfl, hiff r' f' e1' e2'⟩

/-- C17, with two validators that both accept (the result is `(true, nil)`), with a local-part
validator that returns an error (the error is passed on with verdict false), with a domain
validator that rejects, and at `a..b@gmail.com` for `ValidateFullAddress` itself. -/
theorem ValidateFullAddress_conjunction_witness :
    fullAddressBody (fun _ => Run.ret (true, none)) (fun _ => Run.ret (true, none))
        (utf8 "user@yahoo.com") = Run.ret (true, none)
      ∧ fullAddressBody (fun _ => Run.ret (true, some GoError.ErrPunycodeConversion))
          (fun _ => Run.ret (true, none)) (utf8 "user@yahoo.com")
          = Run.ret (false, some GoError.ErrPunycodeConversion)
      ∧ fullAddressBody (fun _ => Run.ret (true, none)) (fun _ => Run.ret (false, none))
          (utf8 "user@yahoo.com") = Run.ret (false, none)
      ∧ (ValidateLocalPartOfEmail (utf8 "a..b@gmail.com") = Run.ret (false, none)
          ∧ ValidateDomainOfEmail asciiResolver (utf8 "a..b@gmail.com") = Run.ret (true, none)
          ∧ ValidateFullAddress asciiResolver (utf8 "a..b@gmail.com") = Run.ret (false, none)) :=
  ⟨(ValidateFullAddress_conjunction asciiResolver (fun _ => Run.ret (true, none))
      (fun _ => Run.ret (true, none)) (utf8 "user@yahoo.com") true true none none rfl rfl).2.1,
    (ValidateFullAddress_conjunction asciiResolver
      (fun _ => Run.ret (true, some GoError.ErrPunycodeConversion))
      (fun _ => Run.ret (true, none)) (utf8 "user@yahoo.com") true true
      (some GoError.ErrPunycodeConversion) none rfl rfl).2.1,
    (ValidateFullAddress_conjunction asciiResolver (fun _ => Run.ret (true, none))
      (fun _ => Run.ret (false, none)) (utf8 "user@yahoo.com") true false none none rfl rfl).2.1,
    by decide, by decide,
    ((ValidateFullAddress_conjunction asciiResolver ValidateLocalPartOfEmail
      (ValidateDomainOfEmail asciiResolver) (utf8 "a..b@gmail.com") false true none none
      (by decide) (by decide)).2.2.2 false true none none (by decide) (by decide)).1⟩

/-- C18: on an address `p@d` with no `@` in `d`, `ValidateLocalPartOfEmail` has the outcome of
`ValidateLocalPart` on `p`, the text before the last `@`; on an input without `@` it returns
`(false, nil)`. -/
theorem ValidateLocalPartOfEmail_splits_at_last (p d : GoString) (hd : 0x40 ∉ d) :
    ValidateLocalPartOfEmail (p ++ 0x40 :: d) = ValidateLocalPart p
      ∧ ∀ e : GoString, 0x40 ∉ e → ValidateLocalPartOfEmail e = Run.ret (false, none) := by
  constructor
  · have hne : ¬ ((p.length : Int) = -1) := by omega
    have hb : ¬ ((p.length : Int) < 0 ∨ ((p ++ 0x40 :: d).length : Int) < (p.length : Int)) := by
      simp only [List.length_append, List.length_cons]
      push_cast
      omega
    unfold ValidateLocalPartOfEmail ValidateLocalPart
    simp only [lastIndexByte_append 0x40 p d hd]
    rw [if_neg hne]
    unfold strTo
    rw [if_neg hb]
    simp only [Run.bind, Int.toNat_ofNat, List.take_left']
  · intro e he
    unfold ValidateLocalPartOfEmail lastIndexByte
    simp only [lastIndexFrom_absent 0x40 e he]
    rfl

/-- C18, at `bad@@domain`: the local part examined is `bad@`, which is rejected. -/
theorem ValidateLocalPartOfEmail_splits_at_last_witness :
    utf8 "bad@@domain" = utf8 "bad@" ++ 0x40 :: utf8 "domain"
      ∧ ValidateLocalPartOfEmail (utf8 "bad@" ++ 0x40 :: utf8 "domain")
          = ValidateLocalPart (utf8 "bad@")
      ∧ ValidateLocalPart (utf8 "bad@") = Run.ret (false, none)
      ∧ ValidateLocalPartOfEmail (utf8 "domain") = Run.ret (false, none) :=
  ⟨by decide,
    (ValidateLocalPartOfEmail_splits_at_last (utf8 "bad@") (utf8 "domain") (by decide)).1,
    by decide,
    (ValidateLocalPartOfEmail_splits_at_last (utf8 "bad@") (utf8 "domain") (by decide)).2
      (utf8 "domain") (by decide)⟩

/-- C20: on an input without `@` that is not bracket-literal-shaped and that `toASCII` turns
into `n`, `ValidateDomain` returns `(true, nil)` if `n` with a dot appended is a key of
`commondomains` and `(false, nil)` otherwise, whatever the resolver's lookups answer; so does
`ValidateDomainOfEmail` on every address whose text after the last `@` is that input. -/
theorem ValidateDomain_table_membership (R : Resolver) (input n : GoString)
    (hat : 0x40 ∉ input) (hlit : matchesIPLiteral input = false)
    (hasc : R.toASCII input = some n) :
    ValidateDomain R input
        = Run.ret (decide (n ++ utf8 "." ∈ commondomains.map Prod.fst), none)
      ∧ ∀ p : GoString, ValidateDomainOfEmail R (p ++ 0x40 :: input)
          = Run.ret (decide (n ++ utf8 "." ∈ commondomains.map Prod.fst), none) := by
  have hdns : dnsName R input
      = Run.ret (decide (n ++ utf8 "." ∈ commondomains.map Prod.fst), none) := by
    rw [dnsName_eq, hasc]
    simp only [mapGet_snd, withTrailingDot_eq]
  constructor
  · unfold ValidateDomain
    rw [contains_at_false input hat, hlit]
    simpa using hdns
  · intro p
    rw [ValidateDomainOfEmail_split R p input hat, hlit]
    simpa using hdns

/-- C20, with a resolver whose lookups all succeed: `example.com` (stored as `false`) is
accepted and `mailhost.io` (not in the table) is rejected. -/
theorem ValidateDomain_table_membership_witness :
    ValidateDomain publicResolver (utf8 "example.com") = Run.ret (true, none)
      ∧ ValidateDomainOfEmail publicResolver (utf8 "user" ++ 0x40 :: utf8 "mailhost.io")
          = Run.ret (false, none) :=
  ⟨(ValidateDomain_table_membership publicResolver (utf8 "example.com") (utf8 "example.com")
      (by decide) (by decide) rfl).1,
    (ValidateDomain_table_membership publicResolver (utf8 "mailhost.io") (utf8 "mailhost.io")
      (by decide) (by decide) rfl).2 (utf8 "user")⟩

/-- C11: `mailhost.io` is not in the table and passes the syntactic checks, its MX lookup
gives one host, the IP lookup of that host gives one address and that address is not
private; yet `ValidateDomain` returns `(false, nil)`.  Lines 213-238, run on their own,
would not return either: the address loop reads `mxaddr[len(mxaddr)]`. -/
theorem ValidateDomain_deliverable_rejected :
    (mapGet commondomains (utf8 "mailhost.io.")).2 = false
      ∧ (1 ≤ (utf8 "mailhost.io.").length ∧ (utf8 "mailhost.io.").length ≤ 254
          ∧ contains (utf8 "mailhost.io.") (utf8 " ") = false
          ∧ contains (utf8 "mailhost.io.") (utf8 "..") = false
          ∧ contains (utf8 "mailhost.io.") (utf8 "-.") = false
          ∧ contains (utf8 "mailhost.io.") (utf8 ".-") = false
          ∧ strIndex (utf8 "mailhost.io.") (utf8 ".") ≠ 0)
      ∧ publicResolver.lookupMX (utf8 "mailhost.io.") = ([utf8 "mx.mailhost.io."], false)
      ∧ publicResolver.lookupIP (utf8 "mx.mailhost.io.") = ([[8, 8, 8, 8]], false)
      ∧ publicResolver.isPrivate [8, 8, 8, 8] = false
      ∧ ValidateDomain publicResolver (utf8 "mailhost.io") = Run.ret (false, none)
      ∧ domainChecks publicResolver (utf8 "mailhost.io.")
          = Run.panic Panic.indexOutOfRange := by
  decide

/-! ## No local part is accepted -/

theorem index_cases {α : Type} (l : List α) (i : Int) :
    index l i = Run.panic Panic.indexOutOfRange ∨ ∃ x, index l i = Run.ret x ∧ x ∈ l ∧ 0 ≤ i := by
  unfold index
  by_cases hi : i < 0
  · left
    rw [if_pos hi]
  · rw [if_neg hi]
    cases hg : l.get? i.toNat with
    | none => exact Or.inl rfl
    | some y => exact Or.inr ⟨y, rfl, List.get?_mem hg, by omega⟩

theorem index_ret {α : Type} (l : List α) (i : Int) (x : α) (h : index l i = Run.ret x) :
    x ∈ l ∧ 0 ≤ i := by
  rcases index_cases l i with hp | ⟨y, hy, hmem, hpos⟩
  · rw [hp] at h
    exact Run.noConfusion h
  · rw [hy] at h
    cases h
    exact ⟨hmem, hpos⟩

/-- At `slice = 0` the read `r[slice-1]` of line 360 is out of range. -/
theorem lpByteCheck_zero (l : List GoString) :
    lpByteCheck l 0 = Run.panic Panic.indexOutOfRange := by
  have h : index l ((0 : Int) - 1) = Run.panic Panic.indexOutOfRange := index_neg l _ (by omega)
  unfold lpByteCheck
  rcases index_cases l 0 with hp | ⟨y, hy, -, -⟩
  · rw [hp]
    rfl
  · rw [hy, h]
    rfl

/-- At `slice = 0` the read `r[slice-1]` of line 372 is out of range. -/
theorem lpQuoteString_zero (l : List GoString) :
    lpQuoteString l 0 = Run.panic Panic.indexOutOfRange := by
  have h : index l ((0 : Int) - 1) = Run.panic Panic.indexOutOfRange := index_neg l _ (by omega)
  unfold lpQuoteString
  rcases index_cases l 0 with hp | ⟨y, hy, -, -⟩
  · rw [hp]
    rfl
  · rw [hy, h]
    rfl

/-- The atom scan, started at any index, ends in `(false, nil)` or in a panic. -/
theorem atomLoop_rejects (l : List GoString) (hne : ∀ x ∈ l, x ≠ []) (k : Nat) :
    atomLoop l (k + 1) = Run.ret (false, none) ∨ ∃ p, atomLoop l (k + 1) = Run.panic p := by
  induction k with
  | zero =>
    right
    rw [atomLoop]
    cases hx : index l ((0 : Nat) : Int) with
    | panic p => exact ⟨p, rfl⟩
    | ret x =>
      have hxne : x ≠ [] := hne x (index_ret l _ x hx).1
      refine ⟨Panic.indexOutOfRange, ?_⟩
      simp [hxne, lpByteCheck_zero]
  | succ k ih =>
    rw [atomLoop]
    cases hx : index l ((k + 1 : Nat) : Int) with
    | panic p => exact Or.inr ⟨p, rfl⟩
    | ret x =>
      have hxne : x ≠ [] := hne x (index_ret l _ x hx).1
      cases hb : lpByteCheck l ((k + 1 : Nat) : Int) with
      | panic p => exact Or.inr ⟨p, by simp [hxne, hb]⟩
      | ret b =>
        cases b with
        | false => exact Or.inl (by simp [hxne, hb])
        | true => simpa [hxne, hb] using ih

/-- The quoted scan, started at any index, ends in `(false, nil)` or in a panic. -/
theorem quoteLoop_rejects (l : List GoString) (hne : ∀ x ∈ l, x ≠ []) (k : Nat) :
    quoteLoop l (k + 1) = Run.ret (false, none) ∨ ∃ p, quoteLoop l (k + 1) = Run.panic p := by
  induction k with
  | zero =>
    right
    rw [quoteLoop]
    cases hx : index l ((0 : Nat) : Int) with
    | panic p => exact ⟨p, rfl⟩
    | ret x =>
      have hxne : x ≠ [] := hne x (index_ret l _ x hx).1
      refine ⟨Panic.indexOutOfRange, ?_⟩
      simp [hxne, lpQuoteString_zero]
  | succ k ih =>
    rw [quoteLoop]
    cases hx : index l ((k + 1 : Nat) : Int) with
    | panic p => exact Or.inr ⟨p, rfl⟩
    | ret x =>
      have hxne : x ≠ [] := hne x (index_ret l _ x hx).1
      cases hb : lpQuoteString l ((k + 1 : Nat) : Int) with
      | panic p => exact Or.inr ⟨p, by simp [hxne, hb]⟩
      | ret b =>
        cases b with
        | false => exact Or.inl (by simp [hxne, hb])
        | true => simpa [hxne, hb] using ih

theorem atomScan_rejects (l : List GoString) (hne : ∀ x ∈ l, x ≠ []) (cb : Int) :
    atomScan l cb = Run.ret (false, none) ∨ ∃ p, atomScan l cb = Run.panic p := by
  unfold atomScan
  rcases index_cases l cb with hp | ⟨x, hx, -, hpos⟩
  · exact Or.inr ⟨_, by rw [hp]; rfl⟩
  · obtain ⟨k, hk⟩ : ∃ k, (cb + 1).toNat = k + 1 := ⟨cb.toNat, by omega⟩
    rw [hx, hk]
    by_cases hdot : x = utf8 "."
    · exact Or.inl (by simp [hdot])
    · simpa [hdot] using atomLoop_rejects l hne k

theorem atomTail_rejects (l : List GoString) (hne : ∀ x ∈ l, x ≠ []) :
    atomTail l = Run.ret (false, none) ∨ ∃ p, atomTail l = Run.panic p := by
  unfold atomTail
  rcases index_cases l ((l.length : Int) - 1) with hp | ⟨x, hx, -, -⟩
  · exact Or.inr ⟨Panic.indexOutOfRange, by simp only [hp, bind_panic]⟩
  · simp only [hx, bind_ret, pure_ret]
    split
    · split
      · exact Or.inl rfl
      · split
        · unfold sliceTo
          split
          · exact Or.inr ⟨_, rfl⟩
          · exact atomScan_rejects _ (fun y hy => hne y (List.mem_of_mem_take hy)) _
        · exact atomScan_rejects l hne _
    · exact atomScan_rejects l hne _

theorem atomBranch_rejects (l : List GoString) (hne : ∀ x ∈ l, x ≠ []) :
    atomBranch l = Run.ret (false, none) ∨ ∃ p, atomBranch l = Run.panic p := by
  unfold atomBranch
  rcases index_cases l 0 with hp | ⟨x, hx, -, -⟩
  · exact Or.inr ⟨_, by rw [hp]; rfl⟩
  · rw [hx]
    simp only [bind_ret, pure_ret]
    split
    · exact Or.inl rfl
    · split
      · split
        · exact Or.inl rfl
        · split
          · unfold sliceFrom
            split
            · exact Or.inr ⟨_, rfl⟩
            · exact atomTail_rejects _ (fun y hy => hne y (List.mem_of_mem_drop hy))
          · exact atomTail_rejects l hne
      · exact atomTail_rejects l hne

theorem localPartBody_rejects (e : GoString) :
    localPartBody e = Run.ret (false, none) ∨ ∃ p, localPartBody e = Run.panic p := by
  have hne : ∀ x ∈ explode e, x ≠ [] := explodeAux_ne_nil _ _
  unfold localPartBody
  rcases index_cases (explode e) (((explode e).length : Int) - 1) with hp | ⟨x, hx, -, hpos⟩
  · exact Or.inr ⟨Panic.indexOutOfRange, by simp only [hp, bind_panic]⟩
  · obtain ⟨k, hk⟩ : ∃ k, (((explode e).length : Int) - 1 + 1).toNat = k + 1 :=
      ⟨(explode e).length - 1, by omega⟩
    simp only [hx, bind_ret, hk]
    split
    · rcases index_cases (explode e) 0 with hp0 | ⟨y, hy, -, -⟩
      · exact Or.inr ⟨Panic.indexOutOfRange, by simp only [hp0, bind_panic]⟩
      · simp only [hy, bind_ret, pure_ret]
        split
        · exact quoteLoop_rejects _ hne k
        · exact atomBranch_rejects _ hne
    · simp only [pure_ret, bind_ret, Bool.false_eq_true, if_false]
      exact atomBranch_rejects _ hne

theorem ValidateLocalPart_rejects (e : GoString) :
    ValidateLocalPart e = Run.ret (false, none) ∨ ∃ p, ValidateLocalPart e = Run.panic p := by
  unfold ValidateLocalPart
  split
  · exact Or.inl rfl
  · exact localPartBody_rejects e

theorem ValidateLocalPartOfEmail_rejects (e : GoString) :
    ValidateLocalPartOfEmail e = Run.ret (false, none)
      ∨ ∃ p, ValidateLocalPartOfEmail e = Run.panic p := by
  unfold ValidateLocalPartOfEmail
  simp only
  split
  · exact Or.inl rfl
  · unfold strTo
    split
    · exact Or.inr ⟨_, rfl⟩
    · simp only [Run.bind]
      split
      · exact Or.inl rfl
      · exact localPartBody_rejects _

/-- C19: for every input, `ValidateLocalPart` and `ValidateLocalPartOfEmail` end in
`(false, nil)` or in an out-of-range panic, so neither returns `(true, nil)`; and
`ValidateFullAddress` returns `(true, nil)` for no input and no resolver. -/
theorem no_local_part_accepted (R : Resolver) (e : GoString) :
    (ValidateLocalPart e = Run.ret (false, none) ∨ ∃ p, ValidateLocalPart e = Run.panic p)
      ∧ (ValidateLocalPartOfEmail e = Run.ret (false, none)
          ∨ ∃ p, ValidateLocalPartOfEmail e = Run.panic p)
      ∧ ValidateLocalPart e ≠ Run.ret (true, none)
      ∧ ValidateLocalPartOfEmail e ≠ Run.ret (true, none)
      ∧ ValidateFullAddress R e ≠ Run.ret (true, none) := by
  have h1 := ValidateLocalPart_rejects e
  have h2 := ValidateLocalPartOfEmail_rejects e
  refine ⟨h1, h2, ?_, ?_, ?_⟩
  · rcases h1 with h | ⟨p, h⟩ <;> rw [h] <;> simp
  · rcases h2 with h | ⟨p, h⟩ <;> rw [h] <;> simp
  · unfold ValidateFullAddress
    rcases h2 with h | ⟨p, h⟩
    · rw [h]
      simp only [bind_ret, ne_eq, not_true_eq_false, if_false, pure_ret]
      cases hd : ValidateDomainOfEmail R e with
      | panic p => simp
      | ret v =>
        obtain ⟨f, err⟩ := v
        cases err <;> simp
    · rw [h]
      simp

end EmailParser
